/-
Verification of the heuristic content-extraction engine of the t2w repository
(src/parser.py): slug derivation, menu extraction, prioritized content-block
extraction and the export aggregator, shallowly embedded over an explicit
markup-tree model.

Modeling conventions:
* Python strings are Lean `String`s; every Python string operation used by the
  source (strip, lower, replace, split, count, startswith, endswith, in,
  len) is modeled by an explicit function over `String.data` (code points),
  matching CPython semantics on the ASCII inputs the parser manipulates.
* A BeautifulSoup tree is the mutual inductive `Node`/`NodeList`; element
  attributes are a class list plus a key-value list (`element.get`).
  `get_text(strip=True)` is the separator-free join of the stripped
  non-whitespace descendant strings, exactly as in bs4.
* Python `list.sort(key=...)` is the unique stable sort by the key; it is
  modeled by a stable insertion sort with the total preorder induced by
  Python tuple comparison of the position keys.
* File IO (os.walk, open, lxml parsing, the shell/body merge) is I/O glue
  outside the extraction logic: `parseTildaExport` receives the already
  loaded and combined documents as a list, in discovery order.
-/
import Mathlib

set_option maxRecDepth 20000

namespace T2W

/-! ## Python string primitives -/

/-- Python whitespace test for str.strip (ASCII range). -/
def isPyWs (c : Char) : Bool :=
  c == ' ' || c == '\t' || c == '\n' || c == '\r' || c == '\x0b' || c == '\x0c'

/-- Model of Python str.strip(). -/
def pyStrip (s : String) : String :=
  ⟨((s.data.dropWhile isPyWs).reverse.dropWhile isPyWs).reverse⟩

/-- Model of Python len() on a string (code points). -/
def pyLen (s : String) : Nat := s.data.length

/-- Model of Python str.lower() (ASCII letters). -/
def pyLower (s : String) : String := ⟨s.data.map Char.toLower⟩

/-- Character-list version of str.startswith. -/
def chListPre : List Char → List Char → Bool
  | [], _ => true
  | _ :: _, [] => false
  | a :: as, b :: bs => a == b && chListPre as bs

/-- Substring occurrence test on character lists (Python `in`). -/
def chListSub (pat : List Char) : List Char → Bool
  | [] => chListPre pat []
  | c :: rest => chListPre pat (c :: rest) || chListSub pat rest

/-- Model of Python s.startswith(pat). -/
def strStartsWith (s pat : String) : Bool := chListPre pat.data s.data

/-- Model of Python s.endswith(pat). -/
def strEndsWith (s pat : String) : Bool := chListPre pat.data.reverse s.data.reverse

/-- Model of Python `pat in s` (substring test). -/
def strContains (s pat : String) : Bool := chListSub pat.data s.data

/-- Model of Python s.count(c) for a single character. -/
def countChar (s : String) (c : Char) : Nat := s.data.count c

/-- Model of Python s[:-n] (used only when s ends with the n-long suffix). -/
def dropRightStr (s : String) (n : Nat) : String := ⟨s.data.take (s.data.length - n)⟩

/-- Fuel-indexed worker for str.replace; fuel bounds the scan length. -/
def replListF (pat rep : List Char) : Nat → List Char → List Char
  | 0, l => l
  | _ + 1, [] => []
  | fuel + 1, c :: rest =>
    if chListPre pat (c :: rest) then
      rep ++ replListF pat rep fuel ((c :: rest).drop pat.length)
    else
      c :: replListF pat rep fuel rest

/-- Model of Python s.replace(pat, rep): leftmost non-overlapping occurrences. -/
def pyReplace (s pat rep : String) : String :=
  ⟨replListF pat.data rep.data s.data.length s.data⟩

/-- Model of Python s.split(c) for a one-character separator (keeps empties). -/
def splitChar (c : Char) : List Char → List (List Char)
  | [] => [[]]
  | x :: xs =>
    match splitChar c xs with
    | [] => [[]]
    | h :: t => if x == c then [] :: h :: t else (x :: h) :: t

/-- Model of Python sep.join for the one-character separator slash. -/
def joinSlash : List String → String
  | [] => ""
  | h :: t => t.foldl (fun acc x => acc ++ "/" ++ x) h

/-- Concatenation of a list of strings (separator-free str.join). -/
def strConcat (l : List String) : String := l.foldr (· ++ ·) ""

/-- Model of Python str.isupper: some cased character and no lowercase one. -/
def pyIsUpper (s : String) : Bool :=
  s.data.any Char.isAlpha && s.data.all (fun c => !c.isLower)

/-- Scanner for str.istitle; the flag records whether the previous character
was cased. -/
def pyIsTitleAux : Bool → List Char → Bool
  | _, [] => true
  | prevCased, c :: rest =>
    if c.isUpper then !prevCased && pyIsTitleAux true rest
    else if c.isLower then prevCased && pyIsTitleAux true rest
    else pyIsTitleAux false rest

/-- Model of Python str.istitle (ASCII letters). -/
def pyIsTitle (s : String) : Bool :=
  s.data.any Char.isAlpha && pyIsTitleAux false s.data

/-- Model of Python `a or b` over optional strings (None and "" are falsy). -/
def pyOrOpt (a b : Option String) : Option String :=
  match a with
  | some s => if s ≠ "" then some s else b
  | none => b

/-- Model of os.path.basename (the part after the last slash). -/
def osBasename (p : String) : String :=
  ⟨(p.data.reverse.takeWhile (fun c => !(c == '/'))).reverse⟩

/-! ## urlparse path extraction (urllib.parse.urlparse(...).path) -/

/-- Characters allowed in a URL scheme after the leading letter. -/
def schemeChar (c : Char) : Bool := c.isAlphanum || c == '+' || c == '-' || c == '.'

/-- Drop a leading scheme: part before the first colon when it is a valid
scheme name, as in CPython urlsplit. -/
def schemeSplit (l : List Char) : List Char :=
  let pre := l.takeWhile (fun c => !(c == ':'))
  if decide (pre.length < l.length) && !pre.isEmpty &&
      (match pre with | c :: _ => c.isAlpha | [] => false) && pre.all schemeChar then
    l.drop (pre.length + 1)
  else l

/-- After the scheme, // introduces a netloc running to the first of / ? #. -/
def dropNetloc (l : List Char) : List Char :=
  if chListPre ['/', '/'] l then
    (l.drop 2).dropWhile (fun c => !(c == '/' || c == '?' || c == '#'))
  else l

/-- Model of urllib.parse.urlparse(u).path: strip scheme, netloc, fragment
and query in the order CPython urlsplit does. -/
def urlPath (u : String) : String :=
  let rest := dropNetloc (schemeSplit u.data)
  let noFrag := rest.takeWhile (fun c => !(c == '#'))
  ⟨noFrag.takeWhile (fun c => !(c == '?'))⟩

/-! ## The markup tree model -/

/-- Attributes of one element: the class list (bs4 multi-valued attribute)
plus the remaining attributes as key-value pairs (element.get). -/
structure EAttrs where
  classes : List String
  kv : List (String × String)

/-- Attribute lookup, element.get(k) returning None when absent. -/
def EAttrs.get (a : EAttrs) (k : String) : Option String :=
  (a.kv.find? (fun p => p.1 == k)).map (fun p => p.2)

/-- The class attribute serialized as bs4 does for string matching. -/
def EAttrs.joined (a : EAttrs) : String :=
  joinSlashLike a.classes
where
  joinSlashLike : List String → String
    | [] => ""
    | h :: t => t.foldl (fun acc x => acc ++ " " ++ x) h

mutual
/-- One node of the parsed markup: a tag with attributes and children, or a
navigable string. -/
inductive Node where
  | elem (tag : String) (attrs : EAttrs) (children : NodeList)
  | text (s : String)

/-- Children sequence (kept as a dedicated type so that all recursions are
structural and reduce definitionally). -/
inductive NodeList where
  | nil
  | cons (head : Node) (tail : NodeList)
end

/-- Build a NodeList from a Lean list literal. -/
def nodesOf : List Node → NodeList
  | [] => .nil
  | n :: ns => .cons n (nodesOf ns)

/-- Element constructor taking a plain list of children. -/
def E (tag : String) (attrs : EAttrs) (children : List Node) : Node :=
  .elem tag attrs (nodesOf children)

/-- Text-node constructor. -/
def T (s : String) : Node := .text s

/-- Attributes with only a class list. -/
def cls (cs : List String) : EAttrs := ⟨cs, []⟩

/-- Empty attribute set. -/
def noAttrs : EAttrs := ⟨[], []⟩

def tagOf : Node → String
  | .elem t _ _ => t
  | .text _ => ""

def attrsOf : Node → EAttrs
  | .elem _ a _ => a
  | .text _ => noAttrs

def childrenOf : Node → NodeList
  | .elem _ _ c => c
  | .text _ => .nil

mutual
/-- The stripped_strings of a node: each descendant string stripped, the
whitespace-only ones dropped, in document order (bs4 get_text(strip=True)
joins these with the empty separator). -/
def textPieces : Node → List String
  | .text s => if pyStrip s = "" then [] else [pyStrip s]
  | .elem _ _ c => textPiecesL c

def textPiecesL : NodeList → List String
  | .nil => []
  | .cons n ns => textPieces n ++ textPiecesL ns
end

/-- Model of element.get_text(strip=True). -/
def getText (n : Node) : String := strConcat (textPieces n)

mutual
/-- Is there a descendant-or-self element satisfying the predicate. -/
def existsElem (p : String → EAttrs → Bool) : Node → Bool
  | .text _ => false
  | .elem t a c => p t a || existsElemL p c

def existsElemL (p : String → EAttrs → Bool) : NodeList → Bool
  | .nil => false
  | .cons n ns => existsElem p n || existsElemL p ns
end

mutual
/-- All descendant-or-self elements with the given tag, in document order
(element.find_all(tag)). -/
def collectTag (t : String) : Node → List Node
  | .text _ => []
  | .elem tg a c => (if tg == t then [Node.elem tg a c] else []) ++ collectTagL t c

def collectTagL (t : String) : NodeList → List Node
  | .nil => []
  | .cons n ns => collectTag t n ++ collectTagL t ns
end

/-- Ancestor chain: (tag, attrs) of the strict ancestors, nearest first. -/
abbrev Anc := List (String × EAttrs)

mutual
/-- First element (pre-order, self included) satisfying the predicate,
returned with its strict-ancestor chain (soup.find). -/
def findElemA (p : String → EAttrs → Bool) (anc : Anc) :
    Node → Option (Node × Anc)
  | .text _ => none
  | .elem t a c =>
    if p t a then some (Node.elem t a c, anc)
    else findElemAL p ((t, a) :: anc) c

def findElemAL (p : String → EAttrs → Bool) (anc : Anc) :
    NodeList → Option (Node × Anc)
  | .nil => none
  | .cons n ns =>
    match findElemA p anc n with
    | some r => some r
    | none => findElemAL p anc ns
end

/-! ## CSS selector engine (the selector forms parse_menu uses) -/

/-- Simple selectors: tag.cls, .cls, tag with class-attribute substring,
bare tag, tag with exact attribute value. An empty tag means any tag. -/
inductive SSel where
  | tagCls (tag c : String)
  | clsOnly (c : String)
  | tagClsSub (tag sub : String)
  | tagOnly (tag : String)
  | tagAttr (tag key val : String)

/-- Compound selectors: simple, child combinator, descendant combinator, and
a comma-separated alternative of simple selectors. -/
inductive Sel where
  | simple (s : SSel)
  | child (par s : SSel)
  | desc (anc s : SSel)
  | disj (ss : List SSel)

/-- Match a simple selector against one element. The substring form matches
against the serialized class attribute, as soupsieve does for class*=. -/
def matchS : SSel → String → EAttrs → Bool
  | .tagCls tg c, t, a => t == tg && a.classes.contains c
  | .clsOnly c, _, a => a.classes.contains c
  | .tagClsSub tg sub, t, a => t == tg && strContains a.joined sub
  | .tagOnly tg, t, _ => t == tg
  | .tagAttr tg k v, t, a => t == tg && a.get k == some v

/-- Match a compound selector against an element with its ancestor chain. -/
def matchSel : Sel → String → EAttrs → Anc → Bool
  | .simple s, t, a, _ => matchS s t a
  | .child p s, t, a, anc =>
    matchS s t a && (match anc with
      | [] => false
      | pa :: _ => matchS p pa.1 pa.2)
  | .desc p s, t, a, anc =>
    matchS s t a && anc.any (fun pa => matchS p pa.1 pa.2)
  | .disj ss, t, a, _ => ss.any (fun s => matchS s t a)

mutual
/-- All elements (self included) matching the selector, in document order,
each with its strict-ancestor chain. -/
def selN (sel : Sel) (anc : Anc) : Node → List (Node × Anc)
  | .text _ => []
  | .elem t a c =>
    (if matchSel sel t a anc then [(Node.elem t a c, anc)] else []) ++
      selL sel ((t, a) :: anc) c

def selL (sel : Sel) (anc : Anc) : NodeList → List (Node × Anc)
  | .nil => []
  | .cons n ns => selN sel anc n ++ selL sel anc ns
end

/-- element.select(sel): matches among the descendants of the element. -/
def select (root : Node × Anc) (sel : Sel) : List (Node × Anc) :=
  selL sel ((tagOf root.1, attrsOf root.1) :: root.2) (childrenOf root.1)

/-- soup.select_one(sel): first match in the whole document. -/
def selectOneDoc (doc : Node) (sel : Sel) : Option (Node × Anc) :=
  (selN sel [] doc).head?

/-! ## get_page_slug -/

/-- The content of the first meta property="og:url" tag, when that content is
truthy (og_url_tag and og_url_tag.get('content')). -/
def ogUrlContent (doc : Node) : Option String :=
  match findElemA (fun t a => t == "meta" && a.get "property" == some "og:url") [] doc with
  | none => none
  | some f =>
    match (attrsOf f.1).get "content" with
    | none => none
    | some c => if c ≠ "" then some c else none

/-- The html-extension-stripped path of the canonical URL. -/
def metaPath (c : String) : String :=
  let path := urlPath (pyStrip c)
  if strEndsWith path ".html" then dropRightStr path 5 else path

/-- Slug from the canonical-URL branch of get_page_slug. -/
def metaSlug (c : String) : String :=
  if metaPath c = "" ∨ metaPath c = "/" then "/"
  else if ¬ (strStartsWith (metaPath c) "/" = true) then "/" ++ metaPath c
  else metaPath c

/-- Slug from the filename fallback branch of get_page_slug. -/
def fallbackSlug (filepath : String) : String :=
  if pyLower (pyReplace (osBasename filepath) ".html" "") = "index" then "/"
  else "/" ++ pyReplace (osBasename filepath) ".html" ""

/-- get_page_slug(filepath, soup): canonical-URL meta tag when its content is
truthy, else the filename. -/
def get_page_slug (filepath : String) (doc : Node) : String :=
  match ogUrlContent doc with
  | some c => metaSlug c
  | none => fallbackSlug filepath

/-! ## parse_menu -/

/-- One extracted menu item; submenu entries are built with empty children. -/
structure MenuItem where
  title : String
  slug : String
  submenu : List MenuItem

/-- The ordered navigation-container selectors parse_menu tries. -/
def navSelList : List Sel :=
  [.simple (.tagCls "nav" "t228__centercontainer"),
   .simple (.tagCls "nav" "t456__rightwrapper"),
   .simple (.tagCls "nav" "t-menu"),
   .simple (.tagCls "div" "t-menu"),
   .simple (.tagClsSub "nav" "menu"),
   .simple (.tagClsSub "div" "menu")]

/-- The final fallback, one comma-separated selector over ul shapes. -/
def ulFallbackSel : Sel :=
  .disj [.tagCls "ul" "t-menu__list", .tagClsSub "ul" "menu", .tagClsSub "ul" "list"]

/-- First navigation container found by the ordered selector list. -/
def selectFirstNav : List Sel → Node → Option (Node × Anc)
  | [], _ => none
  | s :: ss, doc =>
    match selectOneDoc doc s with
    | some nv => some nv
    | none => selectFirstNav ss doc

/-- The per-shape menu item-link selector, chosen from the classes of the
found container (exact membership of t228 and t456, as in the source). -/
def listItemSel (nv : Node × Anc) : Sel :=
  let cs := (attrsOf nv.1).classes
  if cs.contains "t228" then
    .child (.clsOnly "t228__list_item") (.tagCls "a" "t-menu__link-item")
  else if cs.contains "t456" then
    .child (.clsOnly "t456__list_item") (.tagCls "a" "t-menu__link-item")
  else .simple (.tagCls "a" "t-menu__link-item")

/-- The alternative link selectors tried when the first yields nothing. -/
def altLinks (nv : Node × Anc) : List (Node × Anc) :=
  let l1 := select nv (.simple (.tagCls "a" "t-menu__link-item"))
  if !l1.isEmpty then l1
  else
    let l2 := select nv (.simple (.tagClsSub "a" "menu"))
    if !l2.isEmpty then l2
    else select nv (.child (.tagOnly "li") (.tagOnly "a"))

/-- Links from the found container: the shape selector, then alternatives. -/
def linksFrom (nv : Node × Anc) (sel : Sel) : List (Node × Anc) :=
  let ls := select nv sel
  if ls.isEmpty then altLinks nv else ls

/-- The top-level menu links parse_menu iterates over. -/
def menuLinks (doc : Node) : List (Node × Anc) :=
  match selectFirstNav navSelList doc with
  | some nv => linksFrom nv (listItemSel nv)
  | none =>
    match selectOneDoc doc ulFallbackSel with
    | some nv => linksFrom nv (.simple (.tagCls "a" "t-menu__link-item"))
    | none => []

/-- link.get('href', ''). -/
def linkHref (l : Node × Anc) : String := ((attrsOf l.1).get "href").getD ""

/-- link.get_text(strip=True). -/
def linkText (l : Node × Anc) : String := getText l.1

/-- soup.find('div', {'data-tooltip-hook': v}). -/
def findDivHook (doc : Node) (v : String) : Option (Node × Anc) :=
  findElemA (fun t a => t == "div" && a.get "data-tooltip-hook" == some v) [] doc

/-- The three hook lookups: exact stripped hook, then the hook with the
space after the colon removed, then with a space inserted. -/
def findContainer (doc : Node) (href : String) : Option (Node × Anc) :=
  match findDivHook doc (pyStrip href) with
  | some c => some c
  | none =>
    match findDivHook doc (pyReplace href "#submenu: " "#submenu:") with
    | some c => some c
    | none => findDivHook doc (pyReplace href "#submenu:" "#submenu: ")

/-- The ordered submenu link selectors. -/
def subLinks (c : Node × Anc) : List (Node × Anc) :=
  let l1 := select c (.desc (.clsOnly "t794__list_item") (.tagOnly "a"))
  if !l1.isEmpty then l1
  else
    let l2 := select c (.simple (.clsOnly "t794__link"))
    if !l2.isEmpty then l2
    else
      let l3 := select c (.simple (.tagAttr "a" "role" "menuitem"))
      if !l3.isEmpty then l3
      else
        let l4 := select c (.desc (.tagOnly "li") (.tagOnly "a"))
        if !l4.isEmpty then l4
        else select c (.simple (.tagOnly "a"))

/-- Slug of a submenu entry: leading slash ensured for internal links. -/
def subSlug (h : String) : String :=
  if h ≠ "" ∧ ¬ (strStartsWith h "http" = true ∨ strStartsWith h "mailto:" = true ∨
      strStartsWith h "tel:" = true) then
    if strStartsWith h "/" = true then h else "/" ++ h
  else h

/-- One submenu entry, skipped when its visible text is empty. -/
def mkSubItem (sl : Node × Anc) : Option MenuItem :=
  if linkText sl = "" then none
  else some ⟨linkText sl, subSlug (linkHref sl), []⟩

/-- The resolved children of a submenu container. -/
def subItems (c : Node × Anc) : List MenuItem :=
  (subLinks c).filterMap mkSubItem

/-- Slug derived from the item title: lower-cased, spaces to hyphens. -/
def derivedSlug (title : String) : String :=
  "/" ++ pyReplace (pyLower title) " " "-"

/-- Parent slug from the first child slug: truncate one path segment when
the child slug has more than one slash, else fall back to the title slug. -/
def parentSlug (fcs title : String) : String :=
  if strContains fcs "/" = true ∧ 1 < countChar fcs '/' then
    let parentParts := (splitChar '/' fcs.data).dropLast.map (fun l => String.mk l)
    if 1 < parentParts.length then joinSlash parentParts else "/"
  else derivedSlug title

/-- The submenu case of parse_menu: resolve the hook container, collect the
children, and derive the parent slug; a missing container or an empty
children list yields a placeholder item with the derived slug. -/
def hookItem (doc : Node) (title href : String) : MenuItem :=
  match findContainer doc href with
  | none => ⟨title, derivedSlug title, []⟩
  | some c =>
    match subItems c with
    | [] => ⟨title, derivedSlug title, []⟩
    | s0 :: rest => ⟨title, parentSlug s0.slug title, s0 :: rest⟩

/-- The direct-link case of parse_menu. -/
def directSlug (title href : String) : String :=
  if strStartsWith href "/" = true then href
  else if strEndsWith href ".html" = true then
    let s := pyReplace href ".html" ""
    if s = "index" then "/" else "/" ++ s
  else if strStartsWith href "http" = true ∨ strStartsWith href "mailto:" = true ∨
      strStartsWith href "tel:" = true then href
  else derivedSlug title

/-- Process one top-level link: skip empty and placeholder titles, then the
submenu-hook case or the direct-link case. -/
def processLink (doc : Node) (l : Node × Anc) : Option MenuItem :=
  if linkText l = "" ∨ pyLower (linkText l) ∈ ["menu", ""] then none
  else if strStartsWith (linkHref l) "#submenu:" = true then
    some (hookItem doc (linkText l) (linkHref l))
  else some ⟨linkText l, directSlug (linkText l) (linkHref l), []⟩

/-- parse_menu: find the navigation container, extract the top-level links
and process each in order (the loop appends exactly the processed items). -/
def parseMenu (doc : Node) : List MenuItem :=
  (menuLinks doc).filterMap (processLink doc)

/-! ## parse_page_content -/

/-- One extracted content block (the final dict with bookkeeping removed). -/
inductive Block where
  | heading (text : String)
  | paragraph (text : String)
  | button (text href : String)
  | image (src alt : String)
  | list (items : List String)
deriving DecidableEq

/-- Is the block an image block. -/
def isImgBlock : Block → Bool
  | .image _ _ => true
  | _ => false

/-- The texts the source adds to processed_texts for one block: the text of
heading, paragraph and button blocks, every item of a list block. -/
def blockTexts : Block → List String
  | .heading t => [t]
  | .paragraph t => [t]
  | .button t _ => [t]
  | .image _ _ => []
  | .list its => its

/-- One traversed element together with the context the loop body reads:
tag, attributes, children, the strict-ancestor chain (through the main
container up to the document root) and the sibling-index path from the main
container (every sibling, text nodes included, as previous_sibling counts). -/
structure ECtx where
  tag : String
  attrs : EAttrs
  children : NodeList
  anc : Anc
  path : List Nat

mutual
/-- Pre-order collection of all descendant elements with their context,
matching main_content.find_all(True, recursive=True). -/
def collectN (anc : Anc) (path : List Nat) : Node → List ECtx
  | .text _ => []
  | .elem t a c => ⟨t, a, c, anc, path⟩ :: collectL ((t, a) :: anc) path 0 c

def collectL (anc : Anc) (pp : List Nat) (i : Nat) : NodeList → List ECtx
  | .nil => []
  | .cons n ns => collectN anc (pp ++ [i]) n ++ collectL anc pp (i + 1) ns
end

mutual
/-- Remove every subtree whose root element matches (decompose of all
find_all matches; removing the outermost match removes the nested ones). -/
def remAllN (p : String → EAttrs → Bool) : Node → Option Node
  | .text s => some (.text s)
  | .elem t a c => if p t a then none else some (.elem t a (remAllL p c))

def remAllL (p : String → EAttrs → Bool) : NodeList → NodeList
  | .nil => .nil
  | .cons n ns =>
    match remAllN p n with
    | none => remAllL p ns
    | some n2 => .cons n2 (remAllL p ns)
end

mutual
/-- Remove the first matching subtree in pre-order (find then decompose);
the flag records whether a removal happened. -/
def remFirstN (p : String → EAttrs → Bool) : Node → Option Node × Bool
  | .text s => (some (.text s), false)
  | .elem t a c =>
    if p t a then (none, true)
    else
      let r := remFirstL p c
      (some (.elem t a r.1), r.2)

def remFirstL (p : String → EAttrs → Bool) : NodeList → NodeList × Bool
  | .nil => (.nil, false)
  | .cons n ns =>
    let r := remFirstN p n
    if r.2 then
      (match r.1 with
       | none => ns
       | some n2 => .cons n2 ns, true)
    else
      let rs := remFirstL p ns
      (match r.1 with
       | none => rs.1
       | some n2 => .cons n2 rs.1, rs.2)
end

/-- The header region removed up front: header with id t-header. -/
def headerPred (t : String) (a : EAttrs) : Bool :=
  t == "header" && a.get "id" == some "t-header"

/-- The footer region removed up front: footer with id t-footer. -/
def footerPred (t : String) (a : EAttrs) : Bool :=
  t == "footer" && a.get "id" == some "t-footer"

/-- Navigation subtrees removed up front: nav or div one of whose class
strings contains t228, t794 or t-menu as a substring (the class_ lambda is
applied to each class string of the multi-valued attribute). -/
def navRemPred (t : String) (a : EAttrs) : Bool :=
  (t == "nav" || t == "div") &&
    a.classes.any (fun c =>
      strContains c "t228" || strContains c "t794" || strContains c "t-menu")

/-- Decompose header, footer and navigation below the main container. -/
def decomposeMain (c : NodeList) : NodeList :=
  remAllL navRemPred (remFirstL footerPred (remFirstL headerPred c).1).1

/-- Candidate record: the block, the rule priority, and the position key
(tuple(reversed(parent_positions)), position). -/
structure Cand where
  block : Block
  prio : Nat
  key : List Nat × Nat

/-- The position key of an element from its sibling-index path: all the
ancestor sibling indices from the main container downward, paired with the
sibling index of the element itself. -/
def pathKey (p : List Nat) : List Nat × Nat := (p.dropLast, p.getLastD 0)

/-- Traversal state: the processed_texts set and the candidate list. -/
structure PState where
  processed : List String
  cands : List Cand

/-- Has the element an ancestor tagged nav, header or footer
(element.find_parent(['nav', 'header', 'footer'])). -/
def ancNavTag (e : ECtx) : Bool :=
  e.anc.any (fun pa => pa.1 == "nav" || pa.1 == "header" || pa.1 == "footer")

/-- Ancestor div with exact class tn-atom. -/
def ancAtomDiv (e : ECtx) : Bool :=
  e.anc.any (fun pa => pa.1 == "div" && pa.2.classes.contains "tn-atom")

/-- Ancestor div one of whose classes contains t396__elem. -/
def ancT396Div (e : ECtx) : Bool :=
  e.anc.any (fun pa =>
    pa.1 == "div" && pa.2.classes.any (fun c => strContains c "t396__elem"))

/-- Ancestor div with a menu-marker class substring (the list guard of P9). -/
def ancMenuDiv (e : ECtx) : Bool :=
  e.anc.any (fun pa =>
    pa.1 == "div" && pa.2.classes.any (fun c =>
      strContains c "t228" || strContains c "t794" || strContains c "t-menu"))

/-- element.get('style', ''). -/
def styleOf (e : ECtx) : String := ((e.attrs.get "style").getD "")

/-- element.get_text(strip=True) of a traversed element. -/
def eGetText (e : ECtx) : String := strConcat (textPiecesL e.children)

/-- Descendant img exists (element.find('img')). -/
def hasDescImg (e : ECtx) : Bool := existsElemL (fun t _ => t == "img") e.children

/-- Descendant heading tag exists (element.find(['h1', ..., 'h6'])). -/
def hasDescHTag (e : ECtx) : Bool :=
  existsElemL (fun t _ => ["h1", "h2", "h3", "h4", "h5", "h6"].contains t) e.children

/-- Descendant div with class tn-atom exists. -/
def hasDescAtomDiv (e : ECtx) : Bool :=
  existsElemL (fun t a => t == "div" && a.classes.contains "tn-atom") e.children

/-- The FAQ-title class markers of P2. -/
def titleClasses : List String :=
  ["t585__title", "t567__title", "t221__title", "t205__title",
   "t-name", "t-title", "__title", "__name"]

/-- The FAQ-content class markers of P3. -/
def contentClasses : List String :=
  ["t585__content", "t585__text", "t567__content", "t567__text",
   "t221__content", "t221__text", "t205__content", "t205__text",
   "t-descr", "__content", "__text"]

/-- The legacy text markers of P5. -/
def p5Classes : List String := ["t-text", "t-title", "t-descr", "t-name"]

/-- Generic button labels excluded by P7. -/
def btnStop : List String := ["call us", "contact", "menu", "home"]

/-- The heading heuristic of P1: short, and all-caps or title-case or a
heading sub-tag or heavy font weight in the style attribute. -/
def headingP1 (e : ECtx) (t : String) : Bool :=
  decide (pyLen t < 150) &&
    (pyIsUpper t || pyIsTitle t || hasDescHTag e ||
      strContains (styleOf e) "font-weight:700" ||
      strContains (styleOf e) "font-weight:600")

/-- The heading heuristic of P4: short, and all-caps or title-case. -/
def headingP4 (t : String) : Bool :=
  decide (pyLen t < 150) && (pyIsUpper t || pyIsTitle t)

/-- The text guard shared by P1 to P6: non-empty text strictly longer than
3 characters and not yet processed. -/
def textRule (pr : List String) (t : String) (mk : String → Block) (prio : Nat) :
    Option (Block × Nat) :=
  if t ≠ "" ∧ 3 < pyLen t ∧ t ∉ pr then some (mk t, prio) else none

/-- P1 body: skip atoms holding only an image, else heading or paragraph by
the P1 heading heuristic. -/
def rule1 (pr : List String) (e : ECtx) : Option (Block × Nat) :=
  if hasDescImg e = true ∧ eGetText e = "" then none
  else textRule pr (eGetText e)
    (fun t => if headingP1 e t then Block.heading t else Block.paragraph t) 1

/-- P2 body: a FAQ title is a heading. -/
def rule2 (pr : List String) (e : ECtx) : Option (Block × Nat) :=
  textRule pr (eGetText e) Block.heading 2

/-- P3 body: FAQ content is a paragraph. -/
def rule3 (pr : List String) (e : ECtx) : Option (Block × Nat) :=
  textRule pr (eGetText e) Block.paragraph 3

/-- P4 body: heading or paragraph by the short plus case heuristic. -/
def rule4 (pr : List String) (e : ECtx) : Option (Block × Nat) :=
  textRule pr (eGetText e)
    (fun t => if headingP4 t then Block.heading t else Block.paragraph t) 4

/-- P5 body: heading when the tag is a heading tag or a title-ish class is
present, else paragraph. -/
def rule5 (pr : List String) (e : ECtx) : Option (Block × Nat) :=
  textRule pr (eGetText e)
    (fun t =>
      if strStartsWith e.tag "h" || e.attrs.classes.contains "t-title" ||
          e.attrs.classes.contains "t-name"
      then Block.heading t else Block.paragraph t) 5

/-- P6 body: classify a bare heading or paragraph tag by its tag. -/
def rule6 (pr : List String) (e : ECtx) : Option (Block × Nat) :=
  textRule pr (eGetText e)
    (fun t => if strStartsWith e.tag "h" then Block.heading t else Block.paragraph t) 6

/-- P7 body: a button with text of 2 to 50 characters outside the generic
label stoplist. -/
def rule7 (pr : List String) (e : ECtx) : Option (Block × Nat) :=
  if eGetText e ≠ "" ∧ 2 < pyLen (eGetText e) ∧ pyLen (eGetText e) < 50 ∧
      eGetText e ∉ pr ∧ pyLower (eGetText e) ∉ btnStop then
    some (Block.button (eGetText e) ((e.attrs.get "href").getD ""), 7)
  else none

/-- P8 body: an image with a truthy non-data-URI source. -/
def rule8 (e : ECtx) : Option (Block × Nat) :=
  match pyOrOpt (e.attrs.get "src") (e.attrs.get "data-original") with
  | some s =>
    if s ≠ "" ∧ ¬ strStartsWith s "data:" = true then
      some (Block.image s ((e.attrs.get "alt").getD ""), 8)
    else none
  | none => none

/-- P9 item collection: the texts of all descendant li elements that are
non-empty and unprocessed (duplicates within one list are possible because
the marking happens only after the loop). -/
def listItems (pr : List String) (e : ECtx) : List String :=
  (collectTagL "li" e.children).filterMap (fun li =>
    if getText li ≠ "" ∧ getText li ∉ pr then some (getText li) else none)

/-- P9 body: a list block only when more than one item survives. -/
def rule9 (pr : List String) (e : ECtx) : Option (Block × Nat) :=
  if listItems pr e ≠ [] ∧ 1 < (listItems pr e).length then
    some (Block.list (listItems pr e), 9)
  else none

/-- The prioritized, mutually exclusive ruleset of the traversal loop, one
elif chain: the first matching rule claims the element and produces at most
one block. The include_images flag is read only by the image rule P8. -/
def classify (includeImages : Bool) (processed : List String) (e : ECtx) :
    Option (Block × Nat) :=
  if e.attrs.classes.contains "tn-atom" = true then rule1 processed e
  else if e.tag = "span" ∧
      titleClasses.any (fun c => e.attrs.classes.contains c) = true then
    rule2 processed e
  else if (e.tag = "div" ∨ e.tag = "span" ∨ e.tag = "p") ∧
      contentClasses.any (fun c => e.attrs.classes.contains c) = true then
    rule3 processed e
  else if e.attrs.classes.any (fun c => strContains c "t396__elem") = true ∧
      e.attrs.get "data-elem-type" = some "text" ∧ ¬ hasDescAtomDiv e = true then
    rule4 processed e
  else if e.tag ∈ ["p", "div", "span", "h1", "h2", "h3", "h4", "h5", "h6"] ∧
      p5Classes.any (fun c => e.attrs.classes.contains c) = true then
    rule5 processed e
  else if e.tag ∈ ["h1", "h2", "h3", "h4", "h5", "h6", "p"] ∧
      ¬ ancAtomDiv e = true ∧ ¬ ancT396Div e = true then
    rule6 processed e
  else if (e.tag = "a" ∨ e.tag = "button") ∧
      (e.attrs.classes.contains "t-btn" = true ∨
        e.attrs.classes.contains "tn-atom" = true) ∧
      ¬ ancNavTag e = true then
    rule7 processed e
  else if e.tag = "img" ∧ includeImages = true then rule8 e
  else if (e.tag = "ul" ∨ e.tag = "ol") ∧ ¬ ancMenuDiv e = true then
    rule9 processed e
  else none

/-- The skip guard at the top of the loop body: an ancestor tagged nav,
header or footer, or an exact navigation class on the element itself. -/
def skipElem (e : ECtx) : Bool :=
  ancNavTag e ||
    (e.attrs.classes.contains "t228" || e.attrs.classes.contains "t794" ||
      e.attrs.classes.contains "t-menu")

/-- One iteration of the traversal loop: skip, classify, record the block
with its position key and mark its texts processed. The processed_elements
id-set of the source is omitted: find_all yields each element exactly once,
so its membership test at the top of the loop never fires. -/
def step (includeImages : Bool) (st : PState) (e : ECtx) : PState :=
  if skipElem e then st
  else
    match classify includeImages st.processed e with
    | none => st
    | some bp =>
      ⟨st.processed ++ blockTexts bp.1, st.cands ++ [⟨bp.1, bp.2, pathKey e.path⟩]⟩

/-- Python tuple comparison, strict, on equal-typed nat lists: a shorter
tuple that is a prefix of the longer compares less. -/
def listLt : List Nat → List Nat → Bool
  | _, [] => false
  | [], _ :: _ => true
  | a :: as, b :: bs => decide (a < b) || (decide (a = b) && listLt as bs)

/-- The total preorder induced by Python tuple comparison of position keys:
the parent-chain tuples are compared first as wholes, then the own sibling
index. -/
def keyLe (a b : List Nat × Nat) : Bool :=
  listLt a.1 b.1 || (decide (a.1 = b.1) && decide (a.2 ≤ b.2))

/-- Key comparison on candidates (list.sort(key=lambda x: x['position'])). -/
def candLe (a b : Cand) : Bool := keyLe a.key b.key

/-- Stable insertion into a sorted list: the new element goes before the
first element it compares less-or-equal to. -/
def insSorted (le : α → α → Bool) (x : α) : List α → List α
  | [] => [x]
  | y :: ys => if le x y then x :: y :: ys else y :: insSorted le x ys

/-- Stable insertion sort: the unique stable sort for a total preorder,
hence the model of Python list.sort with a key function. -/
def sortIns (le : α → α → Bool) (l : List α) : List α :=
  l.foldr (insSorted le) []

/-- The main content container: the div with id allrecords, else the body. -/
def findMain (doc : Node) : Option (Node × Anc) :=
  match findElemA (fun t a => t == "div" && a.get "id" == some "allrecords") [] doc with
  | some r => some r
  | none => findElemA (fun t _ => t == "body") [] doc

/-- The traversed elements below the main container after decomposition,
each with its ancestor chain and sibling-index path. -/
def pageElems (m : Node × Anc) : List ECtx :=
  collectL ((tagOf m.1, attrsOf m.1) :: m.2) [] 0 (decomposeMain (childrenOf m.1))

/-- The traversal of the whole loop: fold the step over all elements
starting from the empty processed set and no candidates. -/
def pageCands (m : Node × Anc) (includeImages : Bool) : PState :=
  (pageElems m).foldl (step includeImages) ⟨[], []⟩

/-- parse_page_content: locate the main container, decompose header, footer
and navigation, traverse all descendant elements in document order through
the prioritized ruleset, sort the candidates by position key, and strip the
bookkeeping fields. -/
def parsePageContent (doc : Node) (includeImages : Bool) : List Block :=
  match findMain doc with
  | none => []
  | some m => (sortIns candLe (pageCands m includeImages).cands).map (fun c => c.block)

/-! ## parse_tilda_export -/

/-- One page of the structured output. -/
structure Page where
  title : String
  slug : String
  content : List Block

/-- The result dictionary: an error value or the structured data. -/
inductive ExportResult where
  | err (msg : String)
  | ok (menu : List MenuItem) (pages : List Page)

/-- The already-extracted project handed to the aggregator: whether the
extraction root exists, and the discovered documents (filepath and combined
soup) in discovery order. Directory walking and the shell/body merge are
file IO performed before this core logic runs. -/
structure Project where
  extractedExists : Bool
  files : List (String × Node)

/-- bs4 Tag.string: the single navigable string reachable through a chain
of only children, None otherwise. -/
def nodeString : Node → Option String
  | .text s => some s
  | .elem _ _ (.cons c .nil) => nodeString c
  | .elem _ _ _ => none

/-- Title derivation of the aggregator, soup.title.string.strip() when a
title tag exists and "Untitled" otherwise; the None result models the
AttributeError raised when the title tag has no single string. -/
def pageTitle (doc : Node) : Option String :=
  match findElemA (fun t _ => t == "title") [] doc with
  | none => some "Untitled"
  | some f => (nodeString f.1).map pyStrip

/-- The per-document loop of parse_tilda_export: derive title, slug and
content; keep only pages with nonempty content; a None propagates the
uncaught title fault. -/
def buildPages (includeImages : Bool) : List (String × Node) → Option (List Page)
  | [] => some []
  | (fp, doc) :: rest => do
    let t ← pageTitle doc
    let restPages ← buildPages includeImages rest
    let content := parsePageContent doc includeImages
    pure (if content ≠ [] then ⟨t, get_page_slug fp doc, content⟩ :: restPages else restPages)

/-- parse_tilda_export over a loaded project: the two structured error
values, then the menu from the first document and the pages from all; a
None result models an uncaught exception escaping to the caller. -/
def parseTildaExport (p : Project) (includeImages : Bool) : Option ExportResult :=
  if p.extractedExists = false then some (.err "Extracted directory not found.")
  else
    match p.files with
    | [] => some (.err "No HTML files found in the export.")
    | (_, d0) :: _ =>
      (buildPages includeImages p.files).map (fun pages => .ok (parseMenu d0) pages)

/-! ## Concrete documents used by the counterexamples and witnesses -/

/-- Document whose main container has a nested early paragraph followed by
a later top-level heading: the paragraph subtree precedes the heading in
document order. -/
def c1doc : Node :=
  E "html" noAttrs [E "body" noAttrs [
    E "div" ⟨[], [("id", "allrecords")]⟩ [
      E "div" noAttrs [E "p" noAttrs [T "early paragraph here"]],
      E "h1" noAttrs [T "Late heading text"]]]]

/-- Document whose canonical URL path carries a trailing slash. -/
def c2doc : Node :=
  E "html" noAttrs [E "head" noAttrs [
    E "meta" ⟨[], [("property", "og:url"), ("content", "https://example.com/about/")]⟩ []]]

/-- Document without a canonical-URL meta tag. -/
def plainDoc : Node := E "html" noAttrs [E "body" noAttrs []]

/-- Document with a submenu hook whose panel resolves to one single-segment
child: the panel exists and yields children, but the first child slug has
only one slash. -/
def c3doc : Node :=
  E "html" noAttrs [E "body" noAttrs [
    E "nav" (cls ["t228__centercontainer"]) [
      E "a" ⟨["t-menu__link-item"], [("href", "#submenu:Services")]⟩ [T "Services"]],
    E "div" ⟨[], [("data-tooltip-hook", "#submenu:Services")]⟩ [
      E "a" ⟨[], [("href", "repair.html")]⟩ [T "Repair"]]]]

/-- Document whose only menu link is a hook reference with the placeholder
visible text Menu and no matching panel. -/
def c6bad : Node :=
  E "html" noAttrs [E "body" noAttrs [
    E "nav" (cls ["t228__centercontainer"]) [
      E "a" ⟨["t-menu__link-item"], [("href", "#submenu:Sales")]⟩ [T "Menu"]]]]

/-- Document whose only menu link is a hook reference titled Sales with no
matching panel anywhere. -/
def c6good : Node :=
  E "html" noAttrs [E "body" noAttrs [
    E "nav" (cls ["t228__centercontainer"]) [
      E "a" ⟨["t-menu__link-item"], [("href", "#submenu:Sales")]⟩ [T "Sales"]]]]

/-- Document whose title tag is present but empty. -/
def emptyTitleDoc : Node :=
  E "html" noAttrs [E "head" noAttrs [E "title" noAttrs []]]

/-- Document without any title tag. -/
def noTitleDoc : Node := E "html" noAttrs [E "body" noAttrs []]

/-- Document whose title tag holds only whitespace. -/
def wsTitleDoc : Node :=
  E "html" noAttrs [E "head" noAttrs [E "title" noAttrs [T "   "]]]

/-- Document with one paragraph, one list and one button in the main
container. -/
def richDoc : Node :=
  E "html" noAttrs [E "body" noAttrs [
    E "div" ⟨[], [("id", "allrecords")]⟩ [
      E "p" noAttrs [T "Hello world text"],
      E "ul" noAttrs [
        E "li" noAttrs [T "Apples juice"],
        E "li" noAttrs [T "Banana bread"]],
      E "a" ⟨["t-btn"], [("href", "/go")]⟩ [T "Click here now"]]]]

/-- Project with an existing root and one discovered document whose title
tag is empty. -/
def crashProj : Project := ⟨true, [("page1.html", emptyTitleDoc)]⟩

/-- Project whose extraction root is absent. -/
def noRootProj : Project := ⟨false, []⟩

/-- Project with an existing root and zero discovered documents. -/
def noDocsProj : Project := ⟨true, []⟩

example : parsePageContent c1doc true =
    [Block.heading "Late heading text", Block.paragraph "early paragraph here"] := rfl

example : get_page_slug "about.html" c2doc = "/about/" := rfl
example : get_page_slug "index.html" plainDoc = "/" := rfl
example : get_page_slug "team.html" plainDoc = "/team" := rfl

example : parseMenu c3doc =
    [⟨"Services", "/services", [⟨"Repair", "/repair.html", []⟩]⟩] := rfl

example : parseMenu c6bad = [] := rfl
example : parseMenu c6good = [⟨"Sales", "/sales", []⟩] := rfl
example : (menuLinks c6bad).map (fun l => (linkText l, linkHref l)) =
    [("Menu", "#submenu:Sales")] := rfl

example : pageTitle emptyTitleDoc = none := rfl
example : pageTitle noTitleDoc = some "Untitled" := rfl
example : pageTitle wsTitleDoc = some "" := rfl

example : parseTildaExport crashProj true = none := rfl
example : parseTildaExport noRootProj true = some (.err "Extracted directory not found.") := rfl
example : parseTildaExport noDocsProj true = some (.err "No HTML files found in the export.") := rfl

example : parsePageContent richDoc true =
    [Block.paragraph "Hello world text",
     Block.list ["Apples juice", "Banana bread"],
     Block.button "Click here now" "/go"] := rfl

example : parsePageContent richDoc false = parsePageContent richDoc true := rfl

/-! ## Order lemmas for the position key -/

theorem listLt_trans {a b c : List Nat} (h1 : listLt a b = true)
    (h2 : listLt b c = true) : listLt a c = true := by
  induction a generalizing b c with
  | nil => cases b <;> cases c <;> simp_all [listLt]
  | cons x xs ih =>
    cases b with
    | nil => simp [listLt] at h1
    | cons y ys =>
      cases c with
      | nil => simp [listLt] at h2
      | cons z zs =>
        simp only [listLt, Bool.or_eq_true, Bool.and_eq_true,
          decide_eq_true_eq] at h1 h2 ⊢
        rcases h1 with h1 | ⟨rfl, h1⟩ <;> rcases h2 with h2 | ⟨rfl, h2⟩
        · exact Or.inl (Nat.lt_trans h1 h2)
        · exact Or.inl h1
        · exact Or.inl h2
        · exact Or.inr ⟨rfl, ih h1 h2⟩

theorem listLt_total (a b : List Nat) :
    listLt a b = true ∨ a = b ∨ listLt b a = true := by
  induction a generalizing b with
  | nil => cases b <;> simp [listLt]
  | cons x xs ih =>
    cases b with
    | nil => simp [listLt]
    | cons y ys =>
      rcases Nat.lt_trichotomy x y with h | rfl | h
      · exact Or.inl (by simp [listLt, h])
      · rcases ih ys with h | rfl | h
        · exact Or.inl (by simp [listLt, h])
        · exact Or.inr (Or.inl rfl)
        · exact Or.inr (Or.inr (by simp [listLt, h]))
      · exact Or.inr (Or.inr (by simp [listLt, h]))

theorem keyLe_total (a b : List Nat × Nat) :
    keyLe a b = true ∨ keyLe b a = true := by
  rcases listLt_total a.1 b.1 with h | h | h
  · exact Or.inl (by simp [keyLe, h])
  · rcases Nat.le_total a.2 b.2 with h2 | h2
    · exact Or.inl (by simp [keyLe, h, h2])
    · exact Or.inr (by simp [keyLe, h.symm, h2])
  · exact Or.inr (by simp [keyLe, h])

theorem keyLe_trans {a b c : List Nat × Nat} (h1 : keyLe a b = true)
    (h2 : keyLe b c = true) : keyLe a c = true := by
  simp only [keyLe, Bool.or_eq_true, Bool.and_eq_true, decide_eq_true_eq] at h1 h2 ⊢
  rcases h1 with h1 | ⟨e1, h1⟩ <;> rcases h2 with h2 | ⟨e2, h2⟩
  · exact Or.inl (listLt_trans h1 h2)
  · exact Or.inl (e2 ▸ h1)
  · exact Or.inl (e1 ▸ h2)
  · exact Or.inr ⟨e1.trans e2, Nat.le_trans h1 h2⟩

theorem candLe_total (a b : Cand) : candLe a b = true ∨ candLe b a = true :=
  keyLe_total a.key b.key

theorem candLe_trans {a b c : Cand} (h1 : candLe a b = true)
    (h2 : candLe b c = true) : candLe a c = true :=
  keyLe_trans h1 h2

/-! ## Stable insertion sort lemmas -/

section SortLemmas

variable {α : Type} (le : α → α → Bool)

theorem mem_insSorted {x a : α} {l : List α} :
    a ∈ insSorted le x l ↔ a = x ∨ a ∈ l := by
  induction l with
  | nil => simp [insSorted]
  | cons y ys ih =>
    simp only [insSorted]
    split
    · simp [List.mem_cons]
    · simp only [List.mem_cons, ih]
      tauto

theorem mem_sortIns {a : α} {l : List α} : a ∈ sortIns le l ↔ a ∈ l := by
  induction l with
  | nil => simp [sortIns]
  | cons x xs ih =>
    simp only [sortIns, List.foldr_cons]
    rw [show xs.foldr (insSorted le) [] = sortIns le xs from rfl] at *
    simp [mem_insSorted, ih, List.mem_cons]

theorem pairwise_insSorted
    (htot : ∀ a b : α, le a b = true ∨ le b a = true)
    (htrans : ∀ {a b c : α}, le a b = true → le b c = true → le a c = true)
    {x : α} {l : List α}
    (h : l.Pairwise (fun a b => le a b = true)) :
    (insSorted le x l).Pairwise (fun a b => le a b = true) := by
  induction l with
  | nil => simp [insSorted]
  | cons y ys ih =>
    rcases List.pairwise_cons.mp h with ⟨hy, hys⟩
    simp only [insSorted]
    split
    · rename_i hxy
      refine List.Pairwise.cons ?_ h
      intro z hz
      rcases List.mem_cons.mp hz with rfl | hz
      · exact hxy
      · exact htrans hxy (hy z hz)
    · rename_i hxy
      have hyx : le y x = true := by
        rcases htot x y with h1 | h1
        · exact absurd h1 hxy
        · exact h1
      refine List.Pairwise.cons ?_ (ih hys)
      intro z hz
      rcases (mem_insSorted le).mp hz with rfl | hz
      · exact hyx
      · exact hy z hz

theorem sortIns_pairwise
    (htot : ∀ a b : α, le a b = true ∨ le b a = true)
    (htrans : ∀ {a b c : α}, le a b = true → le b c = true → le a c = true)
    (l : List α) :
    (sortIns le l).Pairwise (fun a b => le a b = true) := by
  induction l with
  | nil => simp [sortIns]
  | cons x xs ih => exact pairwise_insSorted le htot htrans ih

theorem insSorted_of_all_le {x : α} {l : List α}
    (h : ∀ z ∈ l, le x z = true) : insSorted le x l = x :: l := by
  cases l with
  | nil => rfl
  | cons y ys => simp [insSorted, h y (List.mem_cons_self y ys)]

theorem filter_insSorted
    (htrans : ∀ {a b c : α}, le a b = true → le b c = true → le a c = true)
    (p : α → Bool) {x : α} {l : List α}
    (hs : l.Pairwise (fun a b => le a b = true)) :
    (insSorted le x l).filter p =
      if p x then insSorted le x (l.filter p) else l.filter p := by
  induction l with
  | nil => cases hpx : p x <;> simp [insSorted, List.filter_cons, hpx]
  | cons y ys ih =>
    rcases List.pairwise_cons.mp hs with ⟨hy, hys⟩
    simp only [insSorted]
    by_cases hxy : le x y = true
    · rw [if_pos hxy]
      cases hpx : p x with
      | false => simp [List.filter_cons, hpx]
      | true =>
        simp only [List.filter_cons, hpx, if_true]
        cases hpy : p y with
        | true => simp [insSorted, hxy]
        | false =>
          rw [insSorted_of_all_le]
          intro z hz
          have hzys : z ∈ ys := List.mem_of_mem_filter hz
          exact htrans hxy (hy z hzys)
    · rw [if_neg hxy]
      cases hpy : p y with
      | true =>
        simp only [List.filter_cons, hpy, if_true, ih hys]
        cases hpx : p x with
        | false => simp
        | true => simp [insSorted, hxy]
      | false =>
        simp only [List.filter_cons, hpy]
        simp only [Bool.false_eq_true, if_false]
        exact ih hys

theorem filter_sortIns
    (htot : ∀ a b : α, le a b = true ∨ le b a = true)
    (htrans : ∀ {a b c : α}, le a b = true → le b c = true → le a c = true)
    (p : α → Bool) (l : List α) :
    (sortIns le l).filter p = sortIns le (l.filter p) := by
  induction l with
  | nil => rfl
  | cons x xs ih =>
    show (insSorted le x (sortIns le xs)).filter p = sortIns le ((x :: xs).filter p)
    rw [filter_insSorted le htrans p (sortIns_pairwise le htot htrans xs), ih]
    cases hpx : p x <;> simp [List.filter_cons, hpx, sortIns]

end SortLemmas

/-- Filtering a mapped list is mapping the filtered list. -/
theorem mapFilterComm {α β : Type} (f : α → β) (q : β → Bool) (l : List α) :
    (l.map f).filter q = (l.filter (fun a => q (f a))).map f := by
  induction l with
  | nil => rfl
  | cons x xs ih =>
    simp only [List.map_cons, List.filter_cons]
    cases hq : q (f x) <;> simp [hq, ih]

/-! ## Rule lemmas -/

/-- The strict bound every emitted text block satisfies: headings and
paragraphs have more than 3 characters, buttons between 3 and 49 characters
with a label outside the stoplist. -/
def GoodBlock : Block → Prop
  | .heading t => 3 < pyLen t
  | .paragraph t => 3 < pyLen t
  | .button t _ => 2 < pyLen t ∧ pyLen t < 50 ∧ pyLower t ∉ btnStop
  | .image _ _ => True
  | .list _ => True

theorem textRule_some {pr : List String} {t : String} {mk : String → Block}
    {prio : Nat} {blk : Block} {pn : Nat}
    (h : textRule pr t mk prio = some (blk, pn)) :
    blk = mk t ∧ pn = prio ∧ t ≠ "" ∧ 3 < pyLen t ∧ t ∉ pr := by
  unfold textRule at h
  split_ifs at h with hg
  · injection h with h2
    injection h2 with hb hp
    exact ⟨hb.symm, hp.symm, hg.1, hg.2.1, hg.2.2⟩

theorem textRule_fresh {pr : List String} {t : String} {mk : String → Block}
    {prio : Nat} {blk : Block} {pn : Nat}
    (hmk : ∀ u, blockTexts (mk u) = [u])
    (h : textRule pr t mk prio = some (blk, pn)) :
    ∀ s ∈ blockTexts blk, s ∉ pr := by
  obtain ⟨rfl, -, -, -, hnp⟩ := textRule_some h
  intro s hs
  rw [hmk t, List.mem_singleton] at hs
  exact hs ▸ hnp

theorem textRule_good {pr : List String} {t : String} {mk : String → Block}
    {prio : Nat} {blk : Block} {pn : Nat}
    (hmk : ∀ u, 3 < pyLen u → GoodBlock (mk u))
    (h : textRule pr t mk prio = some (blk, pn)) : GoodBlock blk := by
  obtain ⟨rfl, -, -, hlen, -⟩ := textRule_some h
  exact hmk t hlen

theorem rule1_fresh {pr : List String} {e : ECtx} {blk : Block} {pn : Nat}
    (h : rule1 pr e = some (blk, pn)) : ∀ s ∈ blockTexts blk, s ∉ pr := by
  unfold rule1 at h
  split_ifs at h with h0
  · refine textRule_fresh ?_ h
    intro u
    split <;> rfl

theorem rule1_good {pr : List String} {e : ECtx} {blk : Block} {pn : Nat}
    (h : rule1 pr e = some (blk, pn)) : GoodBlock blk := by
  unfold rule1 at h
  split_ifs at h with h0
  · refine textRule_good ?_ h
    intro u hu
    split <;> exact hu

theorem rule2_fresh {pr : List String} {e : ECtx} {blk : Block} {pn : Nat}
    (h : rule2 pr e = some (blk, pn)) : ∀ s ∈ blockTexts blk, s ∉ pr := by
  refine textRule_fresh ?_ h
  intro u
  rfl

theorem rule2_good {pr : List String} {e : ECtx} {blk : Block} {pn : Nat}
    (h : rule2 pr e = some (blk, pn)) : GoodBlock blk := by
  refine textRule_good ?_ h
  intro u hu
  exact hu

theorem rule3_fresh {pr : List String} {e : ECtx} {blk : Block} {pn : Nat}
    (h : rule3 pr e = some (blk, pn)) : ∀ s ∈ blockTexts blk, s ∉ pr := by
  refine textRule_fresh ?_ h
  intro u
  rfl

theorem rule3_good {pr : List String} {e : ECtx} {blk : Block} {pn : Nat}
    (h : rule3 pr e = some (blk, pn)) : GoodBlock blk := by
  refine textRule_good ?_ h
  intro u hu
  exact hu

theorem rule4_fresh {pr : List String} {e : ECtx} {blk : Block} {pn : Nat}
    (h : rule4 pr e = some (blk, pn)) : ∀ s ∈ blockTexts blk, s ∉ pr := by
  refine textRule_fresh ?_ h
  intro u
  split <;> rfl

theorem rule4_good {pr : List String} {e : ECtx} {blk : Block} {pn : Nat}
    (h : rule4 pr e = some (blk, pn)) : GoodBlock blk := by
  refine textRule_good ?_ h
  intro u hu
  split <;> exact hu

theorem rule5_fresh {pr : List String} {e : ECtx} {blk : Block} {pn : Nat}
    (h : rule5 pr e = some (blk, pn)) : ∀ s ∈ blockTexts blk, s ∉ pr := by
  refine textRule_fresh ?_ h
  intro u
  split <;> rfl

theorem rule5_good {pr : List String} {e : ECtx} {blk : Block} {pn : Nat}
    (h : rule5 pr e = some (blk, pn)) : GoodBlock blk := by
  refine textRule_good ?_ h
  intro u hu
  split <;> exact hu

theorem rule6_fresh {pr : List String} {e : ECtx} {blk : Block} {pn : Nat}
    (h : rule6 pr e = some (blk, pn)) : ∀ s ∈ blockTexts blk, s ∉ pr := by
  refine textRule_fresh ?_ h
  intro u
  split <;> rfl

theorem rule6_good {pr : List String} {e : ECtx} {blk : Block} {pn : Nat}
    (h : rule6 pr e = some (blk, pn)) : GoodBlock blk := by
  refine textRule_good ?_ h
  intro u hu
  split <;> exact hu

theorem rule7_some {pr : List String} {e : ECtx} {blk : Block} {pn : Nat}
    (h : rule7 pr e = some (blk, pn)) :
    blk = Block.button (eGetText e) ((e.attrs.get "href").getD "") ∧
      2 < pyLen (eGetText e) ∧ pyLen (eGetText e) < 50 ∧
      eGetText e ∉ pr ∧ pyLower (eGetText e) ∉ btnStop := by
  unfold rule7 at h
  split_ifs at h with hg
  · injection h with h2
    injection h2 with hb hp
    exact ⟨hb.symm, hg.2.1, hg.2.2.1, hg.2.2.2.1, hg.2.2.2.2⟩

theorem rule7_fresh {pr : List String} {e : ECtx} {blk : Block} {pn : Nat}
    (h : rule7 pr e = some (blk, pn)) : ∀ s ∈ blockTexts blk, s ∉ pr := by
  obtain ⟨rfl, -, -, hnp, -⟩ := rule7_some h
  intro s hs
  rw [show blockTexts (Block.button (eGetText e) ((e.attrs.get "href").getD "")) =
    [eGetText e] from rfl, List.mem_singleton] at hs
  exact hs ▸ hnp

theorem rule7_good {pr : List String} {e : ECtx} {blk : Block} {pn : Nat}
    (h : rule7 pr e = some (blk, pn)) : GoodBlock blk := by
  obtain ⟨rfl, h1, h2, -, h3⟩ := rule7_some h
  exact ⟨h1, h2, h3⟩

theorem rule8_fresh {pr : List String} {e : ECtx} {blk : Block} {pn : Nat}
    (h : rule8 e = some (blk, pn)) : ∀ s ∈ blockTexts blk, s ∉ pr := by
  unfold rule8 at h
  split at h
  · split_ifs at h
    injection h with h2
    injection h2 with hb hp
    subst hb
    intro s hs
    simp [blockTexts] at hs
  · exact Option.noConfusion h

theorem rule8_good {e : ECtx} {blk : Block} {pn : Nat}
    (h : rule8 e = some (blk, pn)) : GoodBlock blk := by
  unfold rule8 at h
  split at h
  · split_ifs at h
    injection h with h2
    injection h2 with hb hp
    subst hb
    trivial
  · exact Option.noConfusion h

theorem rule9_some {pr : List String} {e : ECtx} {blk : Block} {pn : Nat}
    (h : rule9 pr e = some (blk, pn)) : blk = Block.list (listItems pr e) := by
  unfold rule9 at h
  split_ifs at h with hg
  · injection h with h2
    injection h2 with hb hp
    exact hb.symm

theorem mem_listItems {pr : List String} {e : ECtx} {s : String}
    (hs : s ∈ listItems pr e) : s ∉ pr := by
  unfold listItems at hs
  obtain ⟨li, -, hmk⟩ := List.mem_filterMap.mp hs
  split_ifs at hmk with hg
  injection hmk with h2
  exact h2 ▸ hg.2

theorem rule9_fresh {pr : List String} {e : ECtx} {blk : Block} {pn : Nat}
    (h : rule9 pr e = some (blk, pn)) : ∀ s ∈ blockTexts blk, s ∉ pr := by
  obtain rfl := rule9_some h
  intro s hs
  exact mem_listItems (e := e) hs

theorem rule9_good {pr : List String} {e : ECtx} {blk : Block} {pn : Nat}
    (h : rule9 pr e = some (blk, pn)) : GoodBlock blk := by
  obtain rfl := rule9_some h
  trivial

theorem classify_fresh {b : Bool} {pr : List String} {e : ECtx} {blk : Block}
    {pn : Nat} (h : classify b pr e = some (blk, pn)) :
    ∀ s ∈ blockTexts blk, s ∉ pr := by
  unfold classify at h
  split_ifs at h <;>
    first
      | exact rule1_fresh h
      | exact rule2_fresh h
      | exact rule3_fresh h
      | exact rule4_fresh h
      | exact rule5_fresh h
      | exact rule6_fresh h
      | exact rule7_fresh h
      | exact rule8_fresh h
      | exact rule9_fresh h

theorem classify_good {b : Bool} {pr : List String} {e : ECtx} {blk : Block}
    {pn : Nat} (h : classify b pr e = some (blk, pn)) : GoodBlock blk := by
  unfold classify at h
  split_ifs at h <;>
    first
      | exact rule1_good h
      | exact rule2_good h
      | exact rule3_good h
      | exact rule4_good h
      | exact rule5_good h
      | exact rule6_good h
      | exact rule7_good h
      | exact rule8_good h
      | exact rule9_good h

/-- Drop an image result (what the elif chain produces when the image rule
is switched off: the image tag matches no later rule). -/
def dropImg : Option (Block × Nat) → Option (Block × Nat)
  | some (Block.image _ _, _) => none
  | r => r

theorem dropImg_eq_self {r : Option (Block × Nat)}
    (hni : ∀ s a pn, r ≠ some (Block.image s a, pn)) : dropImg r = r := by
  match r with
  | none => rfl
  | some (Block.heading _, _) => rfl
  | some (Block.paragraph _, _) => rfl
  | some (Block.button _ _, _) => rfl
  | some (Block.list _, _) => rfl
  | some (Block.image s a, pn) => exact absurd rfl (hni s a pn)

theorem dropImg_textRule {pr : List String} {t : String} {mk : String → Block}
    {prio : Nat} (hmk : ∀ u, isImgBlock (mk u) = false) :
    dropImg (textRule pr t mk prio) = textRule pr t mk prio := by
  refine dropImg_eq_self ?_
  intro s a pn h
  obtain ⟨hb, -⟩ := textRule_some h
  have : isImgBlock (Block.image s a) = false := hb ▸ hmk t
  simp [isImgBlock] at this

theorem dropImg_rule1 {pr : List String} {e : ECtx} :
    dropImg (rule1 pr e) = rule1 pr e := by
  unfold rule1
  split_ifs
  · rfl
  · exact dropImg_textRule (fun u => by split <;> rfl)

theorem dropImg_rule7 {pr : List String} {e : ECtx} :
    dropImg (rule7 pr e) = rule7 pr e := by
  refine dropImg_eq_self ?_
  intro s a pn h
  obtain ⟨hb, -⟩ := rule7_some h
  exact Block.noConfusion hb

theorem dropImg_rule9 {pr : List String} {e : ECtx} :
    dropImg (rule9 pr e) = rule9 pr e := by
  refine dropImg_eq_self ?_
  intro s a pn h
  exact Block.noConfusion (rule9_some h)

theorem dropImg_rule8 {e : ECtx} : dropImg (rule8 e) = none := by
  unfold rule8
  split
  · split_ifs <;> rfl
  · rfl

theorem dropImg_rule2 {pr : List String} {e : ECtx} :
    dropImg (rule2 pr e) = rule2 pr e :=
  dropImg_textRule (fun _ => rfl)

theorem dropImg_rule3 {pr : List String} {e : ECtx} :
    dropImg (rule3 pr e) = rule3 pr e :=
  dropImg_textRule (fun _ => rfl)

theorem dropImg_rule4 {pr : List String} {e : ECtx} :
    dropImg (rule4 pr e) = rule4 pr e :=
  dropImg_textRule (fun u => by split <;> rfl)

theorem dropImg_rule5 {pr : List String} {e : ECtx} :
    dropImg (rule5 pr e) = rule5 pr e :=
  dropImg_textRule (fun u => by split <;> rfl)

theorem dropImg_rule6 {pr : List String} {e : ECtx} :
    dropImg (rule6 pr e) = rule6 pr e :=
  dropImg_textRule (fun u => by split <;> rfl)

set_option maxHeartbeats 1000000 in
/-- Switching include_images off drops exactly the image result of the
chain: every other rule is untouched and an unclassified img matches no
later rule. -/
theorem classify_false {pr : List String} {e : ECtx} :
    classify false pr e = dropImg (classify true pr e) := by
  unfold classify
  split_ifs <;>
    first
      | rfl
      | exact dropImg_rule1.symm
      | exact dropImg_rule2.symm
      | exact dropImg_rule3.symm
      | exact dropImg_rule4.symm
      | exact dropImg_rule5.symm
      | exact dropImg_rule6.symm
      | exact dropImg_rule7.symm
      | exact dropImg_rule9.symm
      | exact dropImg_rule8.symm
      | simp_all

/-! ## Traversal fold lemmas -/

theorem foldl_inv {σ α : Type} (f : σ → α → σ) (Q : σ → Prop)
    (hstep : ∀ s a, Q s → Q (f s a)) :
    ∀ (l : List α) (s : σ), Q s → Q (l.foldl f s)
  | [], _, h => h
  | x :: xs, s, h => foldl_inv f Q hstep xs (f s x) (hstep s x h)

theorem step_good {b : Bool} {st : PState} {e : ECtx}
    (hq : ∀ c ∈ st.cands, GoodBlock c.block) :
    ∀ c ∈ (step b st e).cands, GoodBlock c.block := by
  unfold step
  split
  · exact hq
  · split
    · exact hq
    · next bp heq =>
      obtain ⟨blk, pn⟩ := bp
      intro c hc
      rcases List.mem_append.mp hc with hc | hc
      · exact hq c hc
      · rcases List.mem_singleton.mp hc with rfl
        exact classify_good heq

/-- The invariant behind the list-versus-paragraph disjointness: every
recorded text of every candidate is in processed_texts, and no string is
both a paragraph text and a list item among the candidates. -/
def NoOverlap (st : PState) : Prop :=
  (∀ c ∈ st.cands, ∀ s ∈ blockTexts c.block, s ∈ st.processed) ∧
  (∀ c ∈ st.cands, ∀ d ∈ st.cands, ∀ s its,
    c.block = Block.paragraph s → d.block = Block.list its → s ∉ its)

theorem step_noOverlap {b : Bool} {st : PState} {e : ECtx}
    (hq : NoOverlap st) : NoOverlap (step b st e) := by
  obtain ⟨h1, h2⟩ := hq
  unfold step
  split
  · exact ⟨h1, h2⟩
  · split
    · exact ⟨h1, h2⟩
    · next bp heq =>
      obtain ⟨blk, pn⟩ := bp
      constructor
      · intro c hc s hs
        rcases List.mem_append.mp hc with hc | hc
        · exact List.mem_append_left _ (h1 c hc s hs)
        · rcases List.mem_singleton.mp hc with rfl
          exact List.mem_append_right _ hs
      · intro c hc d hd s its hcp hdl
        rcases List.mem_append.mp hc with hc | hc <;>
          rcases List.mem_append.mp hd with hd | hd
        · exact h2 c hc d hd s its hcp hdl
        · rcases List.mem_singleton.mp hd with rfl
          intro hsits
          have hsP : s ∈ st.processed := by
            refine h1 c hc s ?_
            rw [hcp]
            exact List.mem_singleton_self s
          refine classify_fresh heq s ?_ hsP
          rw [show (⟨blk, pn, pathKey e.path⟩ : Cand).block = blk from rfl] at hdl
          rw [hdl]
          exact hsits
        · rcases List.mem_singleton.mp hc with rfl
          intro hsits
          have hsNP : s ∉ st.processed := by
            refine classify_fresh heq s ?_
            rw [show (⟨blk, pn, pathKey e.path⟩ : Cand).block = blk from rfl] at hcp
            rw [hcp]
            exact List.mem_singleton_self s
          refine hsNP (h1 d hd s ?_)
          rw [hdl]
          exact hsits
        · rcases List.mem_singleton.mp hc with rfl
          rcases List.mem_singleton.mp hd with rfl
          rw [show (⟨blk, pn, pathKey e.path⟩ : Cand).block = blk from rfl] at hcp hdl
          rw [hcp] at hdl
          exact Block.noConfusion hdl

theorem pageCands_good (m : Node × Anc) (b : Bool) :
    ∀ c ∈ (pageCands m b).cands, GoodBlock c.block := by
  refine foldl_inv (step b) (fun st => ∀ c ∈ st.cands, GoodBlock c.block)
    (fun st e hq => step_good hq) (pageElems m) ⟨[], []⟩ ?_
  intro c hc
  exact absurd hc (List.not_mem_nil c)

theorem pageCands_noOverlap (m : Node × Anc) (b : Bool) :
    NoOverlap (pageCands m b) := by
  refine foldl_inv (step b) NoOverlap (fun st e hq => step_noOverlap hq)
    (pageElems m) ⟨[], []⟩ ?_
  constructor
  · intro c hc
    exact absurd hc (List.not_mem_nil c)
  · intro c hc
    exact absurd hc (List.not_mem_nil c)

theorem step_eq_skip {b : Bool} {st : PState} {e : ECtx}
    (hsk : skipElem e = true) : step b st e = st := by
  unfold step
  simp [hsk]

theorem step_eq_none {b : Bool} {P : List String} {C : List Cand} {e : ECtx}
    (hsk : ¬ skipElem e = true) (hcl : classify b P e = none) :
    step b ⟨P, C⟩ e = ⟨P, C⟩ := by
  unfold step
  simp [hsk, hcl]

theorem step_eq_some {b : Bool} {P : List String} {C : List Cand} {e : ECtx}
    {blk : Block} {pn : Nat}
    (hsk : ¬ skipElem e = true) (hcl : classify b P e = some (blk, pn)) :
    step b ⟨P, C⟩ e =
      ⟨P ++ blockTexts blk, C ++ [⟨blk, pn, pathKey e.path⟩]⟩ := by
  unfold step
  simp [hsk, hcl]

theorem step_false (e : ECtx) {P : List String} {Ct Cf : List Cand}
    (h : Cf = Ct.filter (fun c => !isImgBlock c.block)) :
    (step false ⟨P, Cf⟩ e).processed = (step true ⟨P, Ct⟩ e).processed ∧
    (step false ⟨P, Cf⟩ e).cands =
      (step true ⟨P, Ct⟩ e).cands.filter (fun c => !isImgBlock c.block) := by
  have hcf : classify false P e = dropImg (classify true P e) := classify_false
  by_cases hsk : skipElem e = true
  · rw [step_eq_skip hsk, step_eq_skip hsk]
    exact ⟨rfl, h⟩
  · cases hcl : classify true P e with
    | none =>
      rw [step_eq_none hsk (by rw [hcf, hcl]; rfl), step_eq_none hsk hcl]
      exact ⟨rfl, h⟩
    | some bp =>
      obtain ⟨blk, pn⟩ := bp
      cases blk with
      | image s a =>
        rw [step_eq_none hsk (by rw [hcf, hcl]; rfl), step_eq_some hsk hcl]
        refine ⟨by simp [blockTexts], ?_⟩
        rw [List.filter_append, h]
        simp [isImgBlock]
      | heading t =>
        rw [step_eq_some hsk (by rw [hcf, hcl]; rfl), step_eq_some hsk hcl]
        refine ⟨rfl, ?_⟩
        rw [List.filter_append, h]
        simp [isImgBlock]
      | paragraph t =>
        rw [step_eq_some hsk (by rw [hcf, hcl]; rfl), step_eq_some hsk hcl]
        refine ⟨rfl, ?_⟩
        rw [List.filter_append, h]
        simp [isImgBlock]
      | button t href =>
        rw [step_eq_some hsk (by rw [hcf, hcl]; rfl), step_eq_some hsk hcl]
        refine ⟨rfl, ?_⟩
        rw [List.filter_append, h]
        simp [isImgBlock]
      | list its =>
        rw [step_eq_some hsk (by rw [hcf, hcl]; rfl), step_eq_some hsk hcl]
        refine ⟨rfl, ?_⟩
        rw [List.filter_append, h]
        simp [isImgBlock]

theorem fold_false : ∀ (elems : List ECtx) (P : List String) (Ct Cf : List Cand),
    Cf = Ct.filter (fun c => !isImgBlock c.block) →
    (elems.foldl (step false) ⟨P, Cf⟩).processed =
      (elems.foldl (step true) ⟨P, Ct⟩).processed ∧
    (elems.foldl (step false) ⟨P, Cf⟩).cands =
      (elems.foldl (step true) ⟨P, Ct⟩).cands.filter (fun c => !isImgBlock c.block) := by
  intro elems
  induction elems with
  | nil =>
    intro P Ct Cf h
    exact ⟨rfl, h⟩
  | cons e es ih =>
    intro P Ct Cf h
    obtain ⟨hp, hc⟩ := step_false e h
    simp only [List.foldl_cons]
    have hsig : step false ⟨P, Cf⟩ e =
        ⟨(step true ⟨P, Ct⟩ e).processed, (step false ⟨P, Cf⟩ e).cands⟩ := by
      rw [← hp]
    rw [hsig]
    exact ih (step true ⟨P, Ct⟩ e).processed (step true ⟨P, Ct⟩ e).cands _ hc

theorem pageCands_false (m : Node × Anc) :
    (pageCands m false).cands =
      (pageCands m true).cands.filter (fun c => !isImgBlock c.block) :=
  (fold_false (pageElems m) [] [] [] rfl).2

/-- Membership in the output comes from a candidate of the traversal. -/
theorem mem_parsePageContent {doc : Node} {b : Bool} {blk : Block}
    (h : blk ∈ parsePageContent doc b) :
    ∃ m, findMain doc = some m ∧ ∃ c ∈ (pageCands m b).cands, c.block = blk := by
  unfold parsePageContent at h
  split at h
  · exact absurd h (List.not_mem_nil blk)
  · next m hm =>
    obtain ⟨c, hc, rfl⟩ := List.mem_map.mp h
    exact ⟨m, hm, c, (mem_sortIns candLe).mp hc, rfl⟩

theorem parsePageContent_noImages (doc : Node) :
    parsePageContent doc false =
      (parsePageContent doc true).filter (fun blk => !isImgBlock blk) := by
  unfold parsePageContent
  cases hfm : findMain doc with
  | none => rfl
  | some m =>
    show (sortIns candLe (pageCands m false).cands).map (fun c => c.block) =
      ((sortIns candLe (pageCands m true).cands).map (fun c => c.block)).filter
        (fun blk => !isImgBlock blk)
    rw [pageCands_false m]
    rw [← filter_sortIns candLe candLe_total (fun h1 h2 => candLe_trans h1 h2)]
    rw [mapFilterComm]

/-! ## Slug lemmas -/

theorem strData_append (a b : String) : (a ++ b).data = a.data ++ b.data := rfl

theorem strEq_of_data {a b : String} (h : a.data = b.data) : a = b := by
  cases a
  cases b
  cases h
  rfl

theorem startsWithSlash_append (p : String) : strStartsWith ("/" ++ p) "/" = true := by
  show chListPre "/".data ("/" ++ p).data = true
  rw [strData_append]
  rfl

theorem metaSlug_startsWith (c : String) : strStartsWith (metaSlug c) "/" = true := by
  unfold metaSlug
  by_cases h1 : metaPath c = "" ∨ metaPath c = "/"
  · rw [if_pos h1]
    rfl
  · rw [if_neg h1]
    by_cases h2 : ¬ (strStartsWith (metaPath c) "/" = true)
    · rw [if_pos h2]
      exact startsWithSlash_append _
    · rw [if_neg h2]
      exact of_not_not h2

theorem fallbackSlug_startsWith (fp : String) :
    strStartsWith (fallbackSlug fp) "/" = true := by
  unfold fallbackSlug
  by_cases h1 : pyLower (pyReplace (osBasename fp) ".html" "") = "index"
  · rw [if_pos h1]
    rfl
  · rw [if_neg h1]
    exact startsWithSlash_append _

theorem get_page_slug_startsWith (fp : String) (doc : Node) :
    strStartsWith (get_page_slug fp doc) "/" = true := by
  unfold get_page_slug
  cases ogUrlContent doc with
  | none => exact fallbackSlug_startsWith fp
  | some c => exact metaSlug_startsWith c

theorem metaSlug_root {c : String} (h : metaPath c = "" ∨ metaPath c = "/") :
    metaSlug c = "/" := by
  unfold metaSlug
  rw [if_pos h]

theorem fallbackSlug_index {fp : String}
    (h : pyLower (pyReplace (osBasename fp) ".html" "") = "index") :
    fallbackSlug fp = "/" := by
  unfold fallbackSlug
  rw [if_pos h]

theorem pyLower_empty {t : String} (h : pyLower t = "") : t = "" := by
  have hd : (pyLower t).data = t.data.map Char.toLower := rfl
  rw [h] at hd
  apply strEq_of_data
  cases hmt : t.data with
  | nil => rfl
  | cons x xs =>
    rw [hmt] at hd
    exact absurd hd.symm (List.cons_ne_nil _ _)

theorem replListF_subset (pat : List Char) :
    ∀ (fuel : Nat) (l : List Char) (c : Char), c ∈ replListF pat [] fuel l → c ∈ l := by
  intro fuel
  induction fuel with
  | zero =>
    intro l c h
    exact h
  | succ f ih =>
    intro l c h
    cases l with
    | nil => exact h
    | cons x xs =>
      simp only [replListF] at h
      split_ifs at h
      · rw [List.nil_append] at h
        exact List.mem_of_mem_drop (ih _ _ h)
      · rcases List.mem_cons.mp h with rfl | h
        · exact List.mem_cons_self _ _
        · exact List.mem_cons_of_mem _ (ih _ _ h)

theorem osBasename_noSlash (fp : String) : '/' ∉ (osBasename fp).data := by
  intro h
  have h2 : '/' ∈ fp.data.reverse.takeWhile (fun c => !(c == '/')) := by
    have : (osBasename fp).data =
        (fp.data.reverse.takeWhile (fun c => !(c == '/'))).reverse := rfl
    rw [this] at h
    exact List.mem_reverse.mp h
  have := List.mem_takeWhile_imp h2
  simp at this

theorem fallbackSlug_noTrail {fp : String}
    (h : strEndsWith (fallbackSlug fp) "/" = true) : fallbackSlug fp = "/" := by
  unfold fallbackSlug at h ⊢
  split_ifs at h ⊢ with h1
  · rfl
  · have hns : '/' ∉ (pyReplace (osBasename fp) ".html" "").data := by
      intro hmem
      exact osBasename_noSlash fp (replListF_subset _ _ _ _ hmem)
    cases hsd : (pyReplace (osBasename fp) ".html" "").data with
    | nil =>
      apply strEq_of_data
      rw [strData_append, hsd]
      rfl
    | cons y ys =>
      exfalso
      unfold strEndsWith at h
      rw [strData_append, hsd] at h
      rw [List.reverse_append] at h
      cases hr : (y :: ys).reverse with
      | nil => exact absurd hr (by simp)
      | cons z zs =>
        rw [hr] at h
        simp only [chListPre, List.cons_append] at h
        have hz : '/' = z := by
          rcases (Bool.and_eq_true _ _).mp h with ⟨hzz, -⟩
          exact eq_of_beq hzz
        apply hns
        rw [hsd]
        have : z ∈ (y :: ys).reverse := by
          rw [hr]
          exact List.mem_cons_self _ _
        exact hz ▸ List.mem_reverse.mp this

/-! ## Menu lemmas -/

theorem hookItem_title (doc : Node) (title href : String) :
    (hookItem doc title href).title = title := by
  unfold hookItem
  split
  · rfl
  · split <;> rfl

theorem hookItem_children (doc : Node) (title href : String) :
    ∀ ch ∈ (hookItem doc title href).submenu, ch.title ≠ "" ∧ ch.submenu = [] := by
  unfold hookItem
  split
  · intro ch hch
    exact absurd hch (List.not_mem_nil ch)
  · next c hc =>
    split
    · intro ch hch
      exact absurd hch (List.not_mem_nil ch)
    · next s0 rest hsi =>
      intro ch hch
      have hsub : ch ∈ subItems c := by
        rw [hsi]
        exact hch
      obtain ⟨sl, -, hmk⟩ := List.mem_filterMap.mp hsub
      unfold mkSubItem at hmk
      split_ifs at hmk with ht
      injection hmk with h2
      exact ⟨by rw [← h2]; exact ht, by rw [← h2]⟩

theorem notSkipped {l : Node × Anc} (ht : linkText l ≠ "")
    (hm : pyLower (linkText l) ≠ "menu") :
    ¬ (linkText l = "" ∨ pyLower (linkText l) ∈ ["menu", ""]) := by
  rintro (he | hmem)
  · exact ht he
  · rcases List.mem_cons.mp hmem with hcase | hcase
    · exact hm hcase
    · rw [List.mem_singleton] at hcase
      exact ht (pyLower_empty hcase)

theorem processLink_hook_noPanel {doc : Node} {l : Node × Anc}
    (ht : linkText l ≠ "") (hm : pyLower (linkText l) ≠ "menu")
    (hh : strStartsWith (linkHref l) "#submenu:" = true)
    (hc : findContainer doc (linkHref l) = none) :
    processLink doc l = some ⟨linkText l, derivedSlug (linkText l), []⟩ := by
  unfold processLink
  rw [if_neg (notSkipped ht hm), if_pos hh]
  unfold hookItem
  simp only [hc]

theorem processLink_hook_children {doc : Node} {l : Node × Anc}
    {c : Node × Anc} {s0 : MenuItem} {rest : List MenuItem}
    (ht : linkText l ≠ "") (hm : pyLower (linkText l) ≠ "menu")
    (hh : strStartsWith (linkHref l) "#submenu:" = true)
    (hc : findContainer doc (linkHref l) = some c)
    (hsi : subItems c = s0 :: rest) :
    processLink doc l =
      some ⟨linkText l, parentSlug s0.slug (linkText l), s0 :: rest⟩ := by
  unfold processLink
  rw [if_neg (notSkipped ht hm), if_pos hh]
  unfold hookItem
  simp only [hc, hsi]

/-- The link of the c3doc navigation. -/
def c3link : Node × Anc := (menuLinks c3doc).headD (Node.text "", [])

/-- The hook panel of c3doc. -/
def c3panel : Node × Anc :=
  (findContainer c3doc "#submenu:Services").getD (Node.text "", [])

/-- The link of the c6good navigation. -/
def c6link : Node × Anc := (menuLinks c6good).headD (Node.text "", [])

/-! ## Claim theorems -/

/-- C1: the claim says the block sequence returned by parse_page_content is
sorted by true visual document order, the lexicographic order of the
sibling-index chains. The code evaluation at the failing input shows the
heading whose chain is [1] emitted before the paragraph whose chain is
[0, 0], although [0, 0] precedes [1] lexicographically: the position key
compares the ancestor-chain tuple as a whole before the own sibling index,
so a shallower element always sorts before a deeper one. -/
theorem C1_order_bug :
    parsePageContent c1doc true =
      [Block.heading "Late heading text", Block.paragraph "early paragraph here"] ∧
    listLt [0, 0] [1] = true :=
  ⟨rfl, by decide⟩

/-- C2 counterexample: a canonical URL whose path ends in a slash yields a
slug with a trailing slash that is not the root, refuting the claimed
no-trailing-slash normalization. -/
theorem C2_cex :
    get_page_slug "about.html" c2doc = "/about/" ∧
    strEndsWith (get_page_slug "about.html" c2doc) "/" = true ∧
    get_page_slug "about.html" c2doc ≠ "/" :=
  ⟨rfl, rfl, by decide⟩

/-- C2 amended: every slug produced by get_page_slug starts with a slash;
a root canonical path and an index filename resolve to exactly the root
slug; a filename-derived slug carries no trailing slash unless it is the
root; but a trailing slash of a canonical-URL path is preserved. -/
theorem C2_amended (fp : String) (doc : Node) :
    strStartsWith (get_page_slug fp doc) "/" = true ∧
    (∀ c, ogUrlContent doc = some c → metaPath c = "" ∨ metaPath c = "/" →
      get_page_slug fp doc = "/") ∧
    (ogUrlContent doc = none →
      pyLower (pyReplace (osBasename fp) ".html" "") = "index" →
      get_page_slug fp doc = "/") ∧
    (ogUrlContent doc = none →
      strEndsWith (get_page_slug fp doc) "/" = true → get_page_slug fp doc = "/") := by
  refine ⟨get_page_slug_startsWith fp doc, ?_, ?_, ?_⟩
  · intro c hc hroot
    unfold get_page_slug
    simp only [hc]
    exact metaSlug_root hroot
  · intro hn hi
    unfold get_page_slug
    simp only [hn]
    exact fallbackSlug_index hi
  · intro hn he
    unfold get_page_slug at he ⊢
    simp only [hn] at he ⊢
    exact fallbackSlug_noTrail he

/-- C2 witness: the amended theorem applied to the index document without a
canonical URL. -/
theorem C2_amended_wit :
    strStartsWith (get_page_slug "index.html" plainDoc) "/" = true ∧
    get_page_slug "index.html" plainDoc = "/" :=
  ⟨(C2_amended "index.html" plainDoc).1,
   (C2_amended "index.html" plainDoc).2.2.1 rfl (by decide)⟩

/-- C3 counterexample: a hook reference whose panel resolves to one child
with the single-segment destination /repair.html makes parse_menu emit the
title-derived fallback /services as the parent destination even though the
children list is non-empty, refuting that the fallback is used only when no
children resolve. -/
theorem C3_cex :
    parseMenu c3doc =
      [⟨"Services", "/services", [⟨"Repair", "/repair.html", []⟩]⟩] ∧
    derivedSlug "Services" = "/services" ∧
    countChar "/repair.html" '/' = 1 :=
  ⟨rfl, rfl, rfl⟩

/-- C3 amended: for a hook link whose panel resolves to a non-empty
children list, the emitted item carries those children, and its destination
is the truncation of the first child destination only when that destination
has more than one slash; otherwise, children notwithstanding, it is the
fallback slug built from the title. -/
theorem C3_amended (doc : Node) (l c : Node × Anc) (s0 : MenuItem)
    (rest : List MenuItem)
    (hl : l ∈ menuLinks doc) (ht : linkText l ≠ "")
    (hm : pyLower (linkText l) ≠ "menu")
    (hh : strStartsWith (linkHref l) "#submenu:" = true)
    (hc : findContainer doc (linkHref l) = some c)
    (hsi : subItems c = s0 :: rest) :
    (⟨linkText l, parentSlug s0.slug (linkText l), s0 :: rest⟩ : MenuItem) ∈
      parseMenu doc ∧
    (strContains s0.slug "/" = true ∧ 1 < countChar s0.slug '/' →
      parentSlug s0.slug (linkText l) =
        (if 1 < ((splitChar '/' s0.slug.data).dropLast.map (fun x => String.mk x)).length
         then joinSlash ((splitChar '/' s0.slug.data).dropLast.map (fun x => String.mk x))
         else "/")) ∧
    (¬ (strContains s0.slug "/" = true ∧ 1 < countChar s0.slug '/') →
      parentSlug s0.slug (linkText l) = derivedSlug (linkText l)) := by
  refine ⟨List.mem_filterMap.mpr ⟨l, hl, processLink_hook_children ht hm hh hc hsi⟩,
    ?_, ?_⟩
  · intro hcond
    unfold parentSlug
    rw [if_pos hcond]
  · intro hcond
    unfold parentSlug
    rw [if_neg hcond]

/-- C3 witness: the amended theorem applied to the concrete document whose
panel yields the single child /repair.html. -/
theorem C3_amended_wit :
    (⟨"Services", "/services", [⟨"Repair", "/repair.html", []⟩]⟩ : MenuItem) ∈
      parseMenu c3doc :=
  (C3_amended c3doc c3link c3panel ⟨"Repair", "/repair.html", []⟩ []
    (by rw [show menuLinks c3doc = [c3link] from rfl]
        exact List.mem_singleton_self _)
    (by decide) (by decide) (by decide) rfl rfl).1

/-- C4: the claim says the emitted page title is the trimmed title-tag text,
equals Untitled when the tag is absent or its text is empty, and the
derivation never raises. The code evaluation shows the empty title tag makes
the derivation raise (the string attribute is None and None.strip() fails,
modeled as the none result), and a whitespace-only title yields the empty
string instead of Untitled; only the absent tag behaves as claimed. -/
theorem C4_title_bug :
    pageTitle emptyTitleDoc = none ∧
    pageTitle noTitleDoc = some "Untitled" ∧
    pageTitle wsTitleDoc = some "" :=
  ⟨rfl, rfl, rfl⟩

/-- C5: the claim says parse_tilda_export returns a structured error value
exactly in the two fatal cases and otherwise always returns a
StructuredExport without any uncaught fault. The code evaluation shows the
two error cases are structured values as claimed, but a project whose one
document has an empty title tag makes the aggregator raise (the none
result), so an uncaught fault reaches the caller in a non-fatal case. -/
theorem C5_export_bug :
    parseTildaExport crashProj true = none ∧
    parseTildaExport noRootProj true =
      some (.err "Extracted directory not found.") ∧
    parseTildaExport noDocsProj true =
      some (.err "No HTML files found in the export.") :=
  ⟨rfl, rfl, rfl⟩

/-- C6 counterexample: a hook-reference link with the placeholder visible
text Menu and no matching panel is dropped entirely, refuting the claim for
every hook link: the skip guard removes placeholder titles before the
panel-missing case is reached. -/
theorem C6_cex :
    parseMenu c6bad = [] ∧
    (menuLinks c6bad).map (fun l => (linkText l, linkHref l)) =
      [("Menu", "#submenu:Sales")] ∧
    findContainer c6bad "#submenu:Sales" = none :=
  ⟨rfl, rfl, rfl⟩

/-- C6 amended: a top-level hook-reference link with no matching panel
anywhere still yields one menu item with the link text as title, the
title-derived slug as destination and no children, provided its visible
text is non-empty and not the placeholder menu. -/
theorem C6_amended (doc : Node) (l : Node × Anc)
    (hl : l ∈ menuLinks doc) (ht : linkText l ≠ "")
    (hm : pyLower (linkText l) ≠ "menu")
    (hh : strStartsWith (linkHref l) "#submenu:" = true)
    (hc : findContainer doc (linkHref l) = none) :
    (⟨linkText l, derivedSlug (linkText l), []⟩ : MenuItem) ∈ parseMenu doc :=
  List.mem_filterMap.mpr ⟨l, hl, processLink_hook_noPanel ht hm hh hc⟩

/-- C6 witness: the amended theorem applied to the Sales hook without a
panel. -/
theorem C6_amended_wit :
    (⟨"Sales", "/sales", []⟩ : MenuItem) ∈ parseMenu c6good :=
  C6_amended c6good c6link
    (by rw [show menuLinks c6good = [c6link] from rfl]
        exact List.mem_singleton_self _)
    (by decide) (by decide) (by decide) rfl

/-- C7: no string occurs both as an item of a List block and as the text of
a standalone Paragraph block in the sequence parse_page_content returns for
one document, for every document and either include_images setting. -/
theorem C7_noListParagraphOverlap (doc : Node) (b : Bool) (s : String)
    (its : List String)
    (hp : Block.paragraph s ∈ parsePageContent doc b)
    (hl : Block.list its ∈ parsePageContent doc b) : s ∉ its := by
  obtain ⟨m, hm, c, hc, hcb⟩ := mem_parsePageContent hp
  obtain ⟨m2, hm2, d, hd, hdb⟩ := mem_parsePageContent hl
  rw [hm] at hm2
  injection hm2 with hmm
  subst hmm
  exact (pageCands_noOverlap m b).2 c hc d hd s its hcb hdb

/-- C7 witness: the theorem applied to the document carrying one paragraph
and one list. -/
theorem C7_wit : "Hello world text" ∉ ["Apples juice", "Banana bread"] :=
  C7_noListParagraphOverlap richDoc true "Hello world text"
    ["Apples juice", "Banana bread"] (by decide) (by decide)

/-- C8: for every document, parse_page_content with include_images switched
off returns exactly the include_images result with all Image blocks
removed: no Image block remains and every other block keeps its fields and
its relative order. -/
theorem C8_noImages (doc : Node) :
    parsePageContent doc false =
      (parsePageContent doc true).filter (fun blk => !isImgBlock blk) :=
  parsePageContent_noImages doc

/-- C9: every menu item parse_menu returns has a non-empty title, and the
tree is at most two levels deep: every child has a non-empty title and no
children of its own. -/
theorem C9_menuShape (doc : Node) (it : MenuItem) (hit : it ∈ parseMenu doc) :
    it.title ≠ "" ∧ ∀ ch ∈ it.submenu, ch.title ≠ "" ∧ ch.submenu = [] := by
  obtain ⟨l, -, h⟩ := List.mem_filterMap.mp hit
  unfold processLink at h
  split_ifs at h with hskip hhook
  · injection h with h2
    subst h2
    refine ⟨?_, hookItem_children doc (linkText l) (linkHref l)⟩
    rw [hookItem_title]
    intro he
    exact hskip (Or.inl he)
  · injection h with h2
    subst h2
    refine ⟨fun he => hskip (Or.inl he), ?_⟩
    intro ch hch
    exact absurd hch (List.not_mem_nil ch)

/-- C9 witness: the theorem applied to the two-level menu of c3doc. -/
theorem C9_wit :
    (⟨"Services", "/services", [⟨"Repair", "/repair.html", []⟩]⟩ : MenuItem).title ≠ "" ∧
    ∀ ch ∈ (⟨"Services", "/services",
        [⟨"Repair", "/repair.html", []⟩]⟩ : MenuItem).submenu,
      ch.title ≠ "" ∧ ch.submenu = [] :=
  C9_menuShape c3doc _
    (by rw [show parseMenu c3doc =
          [⟨"Services", "/services", [⟨"Repair", "/repair.html", []⟩]⟩] from rfl]
        exact List.mem_singleton_self _)

/-- C10: every Heading and Paragraph block returned by parse_page_content
has text strictly longer than 3 characters, and every Button block has text
of length strictly between 2 and 50 whose lower-casing is not one of the
generic stoplist labels. -/
theorem C10_textBounds (doc : Node) (b : Bool) (blk : Block)
    (h : blk ∈ parsePageContent doc b) :
    (∀ t, blk = Block.heading t ∨ blk = Block.paragraph t → 3 < pyLen t) ∧
    (∀ t href, blk = Block.button t href →
      2 < pyLen t ∧ pyLen t < 50 ∧ pyLower t ∉ btnStop) := by
  obtain ⟨m, hm, c, hc, hcb⟩ := mem_parsePageContent h
  have hg := pageCands_good m b c hc
  rw [hcb] at hg
  constructor
  · rintro t (rfl | rfl)
    · exact hg
    · exact hg
  · rintro t href rfl
    exact hg

/-- C10 witness: the theorem applied to the paragraph and the button of the
concrete document. -/
theorem C10_wit :
    3 < pyLen "Hello world text" ∧
    (2 < pyLen "Click here now" ∧ pyLen "Click here now" < 50 ∧
      pyLower "Click here now" ∉ btnStop) :=
  ⟨(C10_textBounds richDoc true (Block.paragraph "Hello world text")
      (by decide)).1 "Hello world text" (Or.inr rfl),
   (C10_textBounds richDoc true (Block.button "Click here now" "/go")
      (by decide)).2 "Click here now" "/go" rfl⟩

end T2W
